import Mathlib

/-!
Verification development for the UI-Capture-System repository.

Each of the repository's core algorithms that the specification talks about is
shallowly embedded as an executable Lean definition translated from the Python
source, and the specification's statements are settled as theorems about those
definitions:

* `src/utils/timing.py`        -> namespace `Timing` (`exp_backoff_delays_ms`, `retry`)
* `src/selectors/strategy.py`  -> namespace `Strategy` (`LocatorStrategy.choose`)
* `src/detection/modal_detector.py` -> namespace `Modal` (`ModalDetector.detect_active`)
* `src/detection/stability.py` -> namespace `Anim` (`wait_for_animations_to_finish`)
* `src/core/engine.py`         -> namespace `Engine` (`Engine.run_workflow`)
* `src/core/workflow_loader.py`-> namespace `Loader` (`StepGoto` url validator)
* `src/core/actions.py`        -> namespace `Capture` (`_do_screenshot`)

Browser effects (Playwright calls, the DOM, the filesystem, random jitter) are
modelled as explicit parameters: an operation that may raise becomes a function
into `Except`, and per-candidate browser observations become fields of a record.
-/

namespace UICap

namespace Timing

/-- Shallow embedding of `exp_backoff_delays_ms` from `src/utils/timing.py`.
The Python generator yields `max(1, attempts)` delays; each yielded value is
`int(min(max_ms, max(0, delay + jitter_delta)))` where `jitter_delta` is a
random float drawn from `uniform(-delay*jitter, delay*jitter)`; afterwards the
running delay grows by `delay = min(max_ms, ceil(delay * factor))`.  The random
draw is modelled as the integer-valued parameter `draw` (one value per step),
and the default factor 2.0 as the natural multiplier `factor`. -/
def expBackoffGo (factor maxMs : Nat) (draw : Nat → Int) : Nat → Nat → Nat → List Nat
  | 0, _, _ => []
  | Nat.succ n, delay, k =>
      (min maxMs (Int.toNat (max 0 ((delay : Int) + draw k)))) ::
        expBackoffGo factor maxMs draw n (min maxMs (delay * factor)) (k + 1)

/-- The delay list produced by `exp_backoff_delays_ms(attempts, initial_ms,
factor, max_ms, jitter)`: `max(1, attempts)` entries. -/
def exp_backoff_delays_ms (attempts initialMs factor maxMs : Nat) (draw : Nat → Int) : List Nat :=
  expBackoffGo factor maxMs draw (max 1 attempts) (max 0 initialMs) 0

/-- The generator always yields exactly `max(1, attempts)` delays. -/
theorem expBackoffGo_length (factor maxMs : Nat) (draw : Nat → Int) :
    ∀ n delay k, (expBackoffGo factor maxMs draw n delay k).length = n := by
  intro n
  induction n with
  | zero => intro delay k; rfl
  | succ m ih => intro delay k; simp [expBackoffGo, ih]

theorem exp_backoff_delays_ms_length (attempts initialMs factor maxMs : Nat) (draw : Nat → Int) :
    (exp_backoff_delays_ms attempts initialMs factor maxMs draw).length = max 1 attempts := by
  unfold exp_backoff_delays_ms
  exact expBackoffGo_length factor maxMs draw (max 1 attempts) (max 0 initialMs) 0

/-- One run of the `for attempt, delay in enumerate(...)` loop inside `retry`
(`src/utils/timing.py`).  The operation under retry is modelled as a function
`op` from the 1-based invocation number to `Except`: `.ok` is a normal return,
`.error` a raised (and caught) exception.  The loop walks the delay list; on
success it returns, on failure it breaks once `attempt >= attempts`, otherwise
it sleeps the current delay and continues.  The trace records the result of the
loop (if any), the number of invocations made, and the list of slept delays. -/
def retryGo (op : Nat → Except ε α) (attempts : Nat) :
    Nat → List Nat → (Option α × Nat × List Nat)
  | _, [] => (none, 0, [])
  | attempt, d :: ds =>
      match op attempt with
      | .ok a => (some a, 1, [])
      | .error _ =>
          if attempts ≤ attempt then (none, 1, [])
          else
            let r := retryGo op attempts (attempt + 1) ds
            (r.1, r.2.1 + 1, d :: r.2.2)

/-- The `# last attempt (no delay)` tail of `retry`: if the loop already
returned a value, pass it through; otherwise call the operation one final time
and re-raise its exception on failure. -/
def finishRetry (op : Nat → Except ε α) (lp : Option α × Nat × List Nat) :
    Except ε α × Nat × List Nat :=
  match lp.1 with
  | some a => (.ok a, lp.2.1, lp.2.2)
  | none =>
      match op (lp.2.1 + 1) with
      | .ok a => (.ok a, lp.2.1 + 1, lp.2.2)
      | .error e => (.error e, lp.2.1 + 1, lp.2.2)

/-- Shallow embedding of `retry` from `src/utils/timing.py`: `attempts = max(1,
tries)`, the backoff generator is called with `attempts - 1`, the loop runs over
its delays, and after the loop (or after the break) one final attempt is made
whose exception, if any, is re-raised.  Returns the final result together with
the total invocation count and the slept delays. -/
def retry (op : Nat → Except ε α) (tries initialMs factor maxMs : Nat) (draw : Nat → Int) :
    Except ε α × Nat × List Nat :=
  finishRetry op
    (retryGo op (max 1 tries) 1
      (exp_backoff_delays_ms (max 1 tries - 1) initialMs factor maxMs draw))

/-- When the wrapped operation raises at every invocation, the retry loop makes
`min(#delays, attempts + 1 - start)` invocations starting from attempt number
`start ≤ attempts`, returns no value, and never sleeps after the final loop
attempt. -/
theorem retryGo_allError (op : Nat → Except ε α) (f : Nat → ε)
    (h : ∀ n, op n = .error (f n)) (attempts : Nat) :
    ∀ ds a, a ≤ attempts →
      (retryGo op attempts a ds).1 = none ∧
      (retryGo op attempts a ds).2.1 = min ds.length (attempts + 1 - a) := by
  intro ds
  induction ds with
  | nil => intro a _; simp [retryGo]
  | cons d ds ih =>
      intro a ha
      by_cases hle : attempts ≤ a
      · have haeq : a = attempts := le_antisymm ha hle
        subst haeq
        simp [retryGo, h a, hle]
      · have ha1 : a + 1 ≤ attempts := Nat.lt_of_not_le hle
        obtain ⟨ih1, ih2⟩ := ih (a + 1) ha1
        refine ⟨?_, ?_⟩
        · simp [retryGo, h a, hle, ih1]
        · simp only [retryGo, h a, hle, if_false, List.length_cons]
          rw [ih2]
          omega

/-- C10 helper: the claim for a fixed tries budget, phrased on the embedding.
With an always-raising operation, `retry` makes exactly `max 2 tries`
invocations and re-raises the exception of the final invocation. -/
theorem retry_allError_calls (op : Nat → Except ε α) (f : Nat → ε)
    (h : ∀ n, op n = .error (f n)) (tries initialMs factor maxMs : Nat) (draw : Nat → Int) :
    (retry op tries initialMs factor maxMs draw).1 = .error (f (max 2 tries)) ∧
    (retry op tries initialMs factor maxMs draw).2.1 = max 2 tries := by
  have hlen := exp_backoff_delays_ms_length (max 1 tries - 1) initialMs factor maxMs draw
  obtain ⟨h1, h2⟩ := retryGo_allError op f h (max 1 tries)
    (exp_backoff_delays_ms (max 1 tries - 1) initialMs factor maxMs draw) 1
    (Nat.le_max_left 1 tries)
  have hcalls :
      (retryGo op (max 1 tries) 1
        (exp_backoff_delays_ms (max 1 tries - 1) initialMs factor maxMs draw)).2.1 + 1
        = max 2 tries := by
    rw [h2, hlen]; omega
  unfold retry finishRetry
  rw [h1]
  simp only [hcalls, h (max 2 tries)]
  simp

/-- C2: for an operation that raises on its first two invocations and succeeds
on the third, `retry` with `tries = 3` returns the successful result and sleeps
exactly 2 backoff delays, while `retry` with `tries = 2` exhausts its attempts
(2 invocations) and re-raises the exception of its final invocation. -/
theorem retry_two_failures_then_success (op : Nat → Except ε α) (e1 e2 : ε) (a : α)
    (h1 : op 1 = .error e1) (h2 : op 2 = .error e2) (h3 : op 3 = .ok a)
    (initialMs factor maxMs : Nat) (draw : Nat → Int) :
    (retry op 3 initialMs factor maxMs draw).1 = .ok a ∧
    (retry op 3 initialMs factor maxMs draw).2.2.length = 2 ∧
    (retry op 2 initialMs factor maxMs draw).1 = .error e2 ∧
    (retry op 2 initialMs factor maxMs draw).2.1 = 2 := by
  refine ⟨?_, ?_, ?_, ?_⟩ <;>
    simp [retry, finishRetry, retryGo, exp_backoff_delays_ms, expBackoffGo, h1, h2, h3]

/-- C2 witness: a concrete operation failing twice then succeeding, at concrete
backoff parameters. -/
theorem retry_two_failures_then_success_witness :
    (retry (fun n => if n = 3 then .ok 7 else (Except.error n : Except Nat Nat))
      3 200 2 2000 (fun _ => 0)).1 = .ok 7 ∧
    (retry (fun n => if n = 3 then .ok 7 else (Except.error n : Except Nat Nat))
      3 200 2 2000 (fun _ => 0)).2.2.length = 2 ∧
    (retry (fun n => if n = 3 then .ok 7 else (Except.error n : Except Nat Nat))
      2 200 2 2000 (fun _ => 0)).1 = .error 2 := by
  have h := retry_two_failures_then_success
    (fun n => if n = 3 then .ok 7 else (Except.error n : Except Nat Nat))
    1 2 7 (by rfl) (by rfl) (by rfl) 200 2 2000 (fun _ => 0)
  exact ⟨h.1, h.2.1, h.2.2.1⟩

/-- C10: for an operation that always raises a caught exception, `retry` with
`tries = t` invokes the operation exactly `max 2 t` times and re-raises the
exception of the final invocation; in particular `tries = 1` invokes it twice.
The backoff-delay generator always yields `max 1 attempts` delays, so at least
one, which together with the trailing final attempt forces the extra call. -/
theorem retry_exhaustion_invocation_count (op : Nat → Except ε α) (f : Nat → ε)
    (h : ∀ n, op n = .error (f n)) (t initialMs factor maxMs : Nat) (draw : Nat → Int) :
    (retry op t initialMs factor maxMs draw).2.1 = max 2 t ∧
    (retry op t initialMs factor maxMs draw).1 = .error (f (max 2 t)) ∧
    (retry op 1 initialMs factor maxMs draw).2.1 = 2 ∧
    (∀ attempts,
      (exp_backoff_delays_ms attempts initialMs factor maxMs draw).length = max 1 attempts) := by
  obtain ⟨r1, r2⟩ := retry_allError_calls op f h t initialMs factor maxMs draw
  obtain ⟨s1, s2⟩ := retry_allError_calls op f h 1 initialMs factor maxMs draw
  refine ⟨r2, r1, ?_, ?_⟩
  · simpa using s2
  · intro attempts
    exact exp_backoff_delays_ms_length attempts initialMs factor maxMs draw

/-- C10 witness: the always-failing operation at `tries = 1` really is invoked
twice, re-raising the second invocation's exception. -/
theorem retry_exhaustion_invocation_count_witness :
    (retry (fun n => (Except.error n : Except Nat Unit)) 1 200 2 2000 (fun _ => 0)).2.1 = 2 ∧
    (retry (fun n => (Except.error n : Except Nat Unit)) 1 200 2 2000 (fun _ => 0)).1
      = .error 2 := by
  have h := retry_exhaustion_invocation_count
    (fun n => (Except.error n : Except Nat Unit)) (fun n => n) (fun _ => rfl)
    1 200 2 2000 (fun _ => 0)
  refine ⟨by simpa using h.1, by simpa using h.2.1⟩

end Timing

namespace Anim

/-- The computed-style facts the in-page script of
`wait_for_animations_to_finish` (`src/detection/stability.py`) reads off one
element: the comma-separated `transition-duration` / `transition-delay` /
`animation-duration` / `animation-delay` lists (already converted to whole
milliseconds, parse failures already mapped to 0) and
`animation-iteration-count` (with `infinite` already mapped to 1, as the
script does). -/
structure CSSElem where
  tDur : List Nat
  tDelay : List Nat
  aDur : List Nat
  aDelay : List Nat
  aIter : List Nat
deriving DecidableEq, Repr

/-- The future end-time offsets (relative to `now()`) an element contributes in
the script's `consider`: for each transition index `i` below
`max(tDur.length, tDelay.length)` the offset `tDur[i] + tDelay[i]` (missing
entries read as 0), and for each animation index the offset
`aDur[i] * iters + aDelay[i]` with `iters = aIter[i] || 1`; only offsets that
are strictly positive are pushed (`end > now()`). -/
def elemEndOffsets (e : CSSElem) : List Nat :=
  let tOff := (List.range (max e.tDur.length e.tDelay.length)).map
    (fun i => e.tDur.getD i 0 + e.tDelay.getD i 0)
  let aOff := (List.range (max (max e.aDur.length e.aDelay.length) e.aIter.length)).map
    (fun i =>
      let iters := if e.aIter.getD i 0 = 0 then 1 else e.aIter.getD i 0
      e.aDur.getD i 0 * iters + e.aDelay.getD i 0)
  (tOff ++ aOff).filter (fun off => 0 < off)

/-- The value the script returns at evaluation time `t` for a page whose
considered elements are `page`:
`Math.min(2000, Math.max(0, Math.max(0, ...endTimes) - now()) + minIdle)`,
with `endTimes` the pushed absolute end times `t + off`. -/
def scriptSuggestion (page : List CSSElem) (minIdle t : Nat) : Nat :=
  let ends := ((page.map elemEndOffsets).flatten).map (fun off => t + off)
  let maxEnd := ends.foldl max 0
  min 2000 ((maxEnd - t) + minIdle)

/-- Trace of one call to `wait_for_animations_to_finish`: the slept amounts in
order, whether the double `requestAnimationFrame` paint flush on the early
return was reached, and the evaluation time at which the function returned. -/
structure AnimTrace where
  sleeps : List Nat
  flushedPaint : Bool
  endTime : Nat
deriving DecidableEq, Repr

/-- The `for _ in range(10)` loop body of `wait_for_animations_to_finish`: it
evaluates the script, returns (after awaiting two animation frames) when the
suggestion is falsy or at most `min_idle_ms // 2`, and otherwise sleeps the
suggested amount via `page.wait_for_timeout`. -/
def animGo (page : List CSSElem) (minIdle : Nat) : Nat → Nat → List Nat → AnimTrace
  | 0, t, acc => ⟨acc.reverse, false, t⟩
  | Nat.succ n, t, acc =>
      if scriptSuggestion page minIdle t = 0 ∨ scriptSuggestion page minIdle t ≤ minIdle / 2
      then ⟨acc.reverse, true, t⟩
      else animGo page minIdle n
        (t + scriptSuggestion page minIdle t) (scriptSuggestion page minIdle t :: acc)

/-- Shallow embedding of `wait_for_animations_to_finish` from
`src/detection/stability.py`, started at monotonic time `t0`. -/
def wait_for_animations_to_finish (page : List CSSElem) (minIdle t0 : Nat) : AnimTrace :=
  animGo page minIdle 10 t0 []

theorem animGo_bounds (page : List CSSElem) (minIdle : Nat) :
    ∀ fuel t acc,
      (animGo page minIdle fuel t acc).sleeps.length ≤ fuel + acc.length ∧
      (animGo page minIdle fuel t acc).sleeps.sum ≤ 2000 * fuel + acc.sum ∧
      (acc.all (fun m => m ≤ 2000) = true →
        (animGo page minIdle fuel t acc).sleeps.all (fun m => m ≤ 2000) = true) := by
  intro fuel
  induction fuel with
  | zero =>
      intro t acc
      refine ⟨by simp [animGo], by simp [animGo, List.sum_reverse], ?_⟩
      intro hall
      simpa [animGo, List.all_eq_true] using (List.all_eq_true.mp hall)
  | succ n ih =>
      intro t acc
      by_cases hstop :
          scriptSuggestion page minIdle t = 0 ∨ scriptSuggestion page minIdle t ≤ minIdle / 2
      · have heq : animGo page minIdle (n + 1) t acc = ⟨acc.reverse, true, t⟩ := by
          simp only [animGo]; rw [if_pos hstop]
        rw [heq]
        refine ⟨by simp, by simp [List.sum_reverse], ?_⟩
        intro hall
        simpa [List.all_eq_true] using (List.all_eq_true.mp hall)
      · have hms : scriptSuggestion page minIdle t ≤ 2000 := Nat.min_le_left _ _
        have heq : animGo page minIdle (n + 1) t acc =
            animGo page minIdle n
              (t + scriptSuggestion page minIdle t) (scriptSuggestion page minIdle t :: acc) := by
          simp only [animGo]; rw [if_neg hstop]
        obtain ⟨ih1, ih2, ih3⟩ :=
          ih (t + scriptSuggestion page minIdle t) (scriptSuggestion page minIdle t :: acc)
        rw [heq]
        refine ⟨?_, ?_, ?_⟩
        · simp only [List.length_cons] at ih1
          omega
        · simp only [List.sum_cons] at ih2
          omega
        · intro hall
          refine ih3 ?_
          simp only [List.all_cons, Bool.and_eq_true, decide_eq_true_eq]
          exact ⟨hms, hall⟩

/-- C9: for every page state and every idle margin and start time, one call to
`wait_for_animations_to_finish` performs at most 10 sleeps, each capped at
2000 ms, so its total sleeping is bounded by 20000 ms; being a total function
of the page state, the loop always terminates. -/
theorem wait_for_animations_bounded (page : List CSSElem) (minIdle t0 : Nat) :
    (wait_for_animations_to_finish page minIdle t0).sleeps.length ≤ 10 ∧
    (wait_for_animations_to_finish page minIdle t0).sleeps.sum ≤ 20000 ∧
    (wait_for_animations_to_finish page minIdle t0).sleeps.all (fun m => m ≤ 2000) = true := by
  obtain ⟨h1, h2, h3⟩ := animGo_bounds page minIdle 10 t0 []
  refine ⟨by simpa using h1, by simpa using h2, h3 (by simp)⟩

/-- A page holding exactly one element with `transition-duration: 300ms;
transition-delay: 0ms` and no other animated elements. -/
def singleTransitionPage : List CSSElem :=
  [⟨[300], [0], [], [], []⟩]

/-- C3: on a page with a single 300 ms-transition element and the default
200 ms idle margin, the script suggestion is computed from declared computed
styles alone, so it stays at `min(2000, 300 + 200) = 500` forever and never
drops to or below half the idle margin; consequently the loop performs all 10
polling cycles (sleeping 500 ms each, 5000 ms total) instead of at most one
extra cycle past the 500 ms threshold, and returns by exhausting the iteration
cap without ever awaiting the two back-to-back animation-frame callbacks. -/
theorem wait_for_animations_single_transition_never_flushes :
    wait_for_animations_to_finish singleTransitionPage 200 0 =
      ⟨[500, 500, 500, 500, 500, 500, 500, 500, 500, 500], false, 5000⟩ ∧
    (∀ t, scriptSuggestion singleTransitionPage 200 t = 500) := by
  constructor
  · decide
  · intro t
    simp [scriptSuggestion, singleTransitionPage, elemEndOffsets, List.range_succ]

end Anim

namespace Loader

/-- Python `str.strip()` on a string given as its character list: drop
whitespace from both ends. -/
def pyStrip (l : List Char) : List Char :=
  ((l.dropWhile Char.isWhitespace).reverse.dropWhile Char.isWhitespace).reverse

/-- Shallow embedding of the `StepGoto.url` pydantic field validator from
`src/core/workflow_loader.py`, working on the url's character list: strip the
value, raise `goto.url must be an absolute http(s) URL` unless it starts with
`http`, and return the stripped value. -/
def stepGotoUrlCheck (v : List Char) : Except String (List Char) :=
  let s := pyStrip v
  if ("http".toList).isPrefixOf s then .ok s
  else .error "goto.url must be an absolute http(s) URL"

/-- Whether the loader accepts a `goto` step's url. -/
def gotoUrlAccepted (v : List Char) : Bool :=
  match stepGotoUrlCheck v with
  | .ok _ => true
  | .error _ => false

/-- Modelled from the spec: an absolute http(s) URL, i.e. one that carries an
explicit `http://` or `https://` scheme.  This is the property the spec (and
the validator's own error message) claims the validator enforces; it is stated
separately so that it can be compared with `stepGotoUrlCheck`. -/
def specAbsoluteHttpUrl (s : List Char) : Bool :=
  ("http://".toList).isPrefixOf s || ("https://".toList).isPrefixOf s

/-- Whether a URL string carries any scheme separator `://` at all. -/
def hasUrlScheme (s : List Char) : Bool :=
  s.tails.any (fun t => ("://".toList).isPrefixOf t)

/-- C7: the validator is only a `startswith("http")` prefix test, so while it
does reject scheme-less URLs that do not begin with `http` (such as
`example.com/login`), it accepts the string `httpnotaurl`, which carries no
scheme separator and is not an absolute http(s) URL — contradicting both the
spec and the validator's own error message. -/
theorem stepGoto_scheme_check_gap :
    gotoUrlAccepted "httpnotaurl".toList = true ∧
    hasUrlScheme "httpnotaurl".toList = false ∧
    specAbsoluteHttpUrl "httpnotaurl".toList = false ∧
    gotoUrlAccepted "example.com/login".toList = false ∧
    gotoUrlAccepted "https://example.com/login".toList = true := by
  refine ⟨by decide, by decide, by decide, by decide, by decide⟩

end Loader

namespace Capture

/-- A capture produced by `ScreenshotManager` in the rich path of
`_do_screenshot` (`src/core/actions.py`); only the artifact path matters to
the fallback control flow. -/
structure CaptureRec where
  path : String
deriving DecidableEq, Repr

/-- The rich capture path of `_do_screenshot`: take the managed screenshot,
then let `MetadataBuilder.record` write the sidecar and append to
`captures.jsonl`; any raised exception propagates to the enclosing `try`. -/
def richPath (shot : Except String CaptureRec)
    (record : CaptureRec → Except String Unit) : Except String String :=
  match shot with
  | .error e => .error e
  | .ok cap =>
      match record cap with
      | .error e => .error e
      | .ok _ => .ok cap.path

/-- Shallow embedding of `_do_screenshot` from `src/core/actions.py`: run the
rich path inside `try`; on any exception fall back to the bare Playwright
screenshot write `bare` (no sidecar) and return its path; an exception of the
bare write itself propagates. -/
def do_screenshot (shot : Except String CaptureRec)
    (record : CaptureRec → Except String Unit)
    (bare : Except String String) : Except String String :=
  match richPath shot record with
  | .ok p => .ok p
  | .error _ => bare

/-- Whether an `Except` result is a success. -/
def exceptOk : Except String String → Bool
  | .ok _ => true
  | .error _ => false

/-- C8: if the rich capture path (managed screenshot plus sidecar and
`captures.jsonl` append) raises for any reason, `_do_screenshot` returns the
result of the bare fallback write instead of propagating the error — in
particular the bare path's artifact when it succeeds — and the step's result is
an error only when the bare fallback itself also fails; when the rich path
succeeds its path is returned untouched. -/
theorem screenshot_fallback_spec (shot : Except String CaptureRec)
    (record : CaptureRec → Except String Unit) (bare : Except String String) :
    (∀ e, richPath shot record = .error e → do_screenshot shot record bare = bare) ∧
    (∀ p, richPath shot record = .ok p → do_screenshot shot record bare = .ok p) ∧
    (exceptOk (do_screenshot shot record bare) = false →
      exceptOk bare = false ∧ exceptOk (richPath shot record) = false) := by
  refine ⟨?_, ?_, ?_⟩
  · intro e he
    simp [do_screenshot, he]
  · intro p hp
    simp [do_screenshot, hp]
  · intro hfail
    cases hrich : richPath shot record with
    | ok p => rw [do_screenshot, hrich] at hfail; simp [exceptOk] at hfail
    | error e =>
        rw [do_screenshot, hrich] at hfail
        exact ⟨hfail, by simp [exceptOk, hrich]⟩

/-- C8 witness: a failing rich path (imaging dependency missing) with a
succeeding bare write falls back and returns the bare path. -/
theorem screenshot_fallback_spec_witness :
    do_screenshot (.error "Pillow is missing") (fun _ => .ok ())
      (.ok "runs/demo/step_001.png") = .ok "runs/demo/step_001.png" := by
  have h := screenshot_fallback_spec (.error "Pillow is missing") (fun _ => .ok ())
    (.ok "runs/demo/step_001.png")
  exact h.1 "Pillow is missing" rfl

end Capture

namespace Strategy

/-- Outcome of one Python call that either returns a value or raises an
exception carrying a message. -/
inductive PyResult (α : Type) where
  | ok (a : α)
  | exn (msg : String)
deriving DecidableEq, Repr

/-- The pieces of a `Selector` that `LocatorStrategy.choose`
(`src/selectors/strategy.py`) renders into diagnostics. -/
structure SelectorS where
  strategy : String
  value : String
deriving DecidableEq, Repr

/-- One candidate selector together with the browser observations `choose`
makes about it: the result of `loc.count()`, the result of
`loc.first.is_visible(timeout=...)` (only consulted when the count is
positive and visibility is required), and whether the later
`wait_for(state="visible")` on this locator would succeed. -/
structure Candidate where
  sel : SelectorS
  countR : PyResult Nat
  visR : PyResult Bool
  waitOk : Bool
deriving DecidableEq, Repr

/-- The diagnostic `choose` appends when `loc.count() == 0`. -/
def diagNoneFound (idx : Nat) (s : SelectorS) : String :=
  "[" ++ toString idx ++ "] none found: " ++ s.strategy ++ ":" ++ s.value

/-- The diagnostic `choose` appends when the candidate's probe raises. -/
def diagError (idx : Nat) (s : SelectorS) (m : String) : String :=
  "[" ++ toString idx ++ "] error: " ++ s.strategy ++ ":" ++ s.value ++ " -> " ++ m

/-- The `SelectorNotFound` message: header plus all collected per-candidate
diagnostics (or `<none>`), joined with newline-indent separators. -/
def notFoundMessage (errs : List String) : String :=
  "No selector matched (or became visible). Tried:\n  " ++
    String.intercalate "\n  " (if errs.isEmpty then ["<none>"] else errs)

/-- Result of `choose`: either a chosen locator (its candidate index and its
`how` tag) or the raised `SelectorNotFound` with its message. -/
inductive ChooseOutcome where
  | chosen (index : Nat) (how : String)
  | notFound (message : String)
deriving DecidableEq, Repr

/-- `if first_present is None: first_present = q`. -/
def fpOr (a b : Option (Nat × Candidate)) : Option (Nat × Candidate) :=
  match a with
  | some p => some p
  | none => b

/-- The tail of `choose` after the scan loop: if a present candidate was
remembered, wait once more for it to become visible and return it tagged
`state-wait` on success; in every other case raise `SelectorNotFound`. -/
def finishChoose (errs : List String) (fp : Option (Nat × Candidate)) : ChooseOutcome :=
  match fp with
  | some (i, c) =>
      if c.waitOk then .chosen i "state-wait" else .notFound (notFoundMessage errs)
  | none => .notFound (notFoundMessage errs)

/-- The `for idx, sel in enumerate(selectors)` loop of
`LocatorStrategy.choose`, threading the accumulated diagnostics and the first
remembered present candidate exactly as the Python does. -/
def chooseGo (rv : Bool) : List Candidate → Nat → List String → Option (Nat × Candidate) →
    ChooseOutcome
  | [], _, errs, fp => finishChoose errs fp
  | c :: rest, idx, errs, fp =>
      match c.countR with
      | .exn m => chooseGo rv rest (idx + 1) (errs ++ [diagError idx c.sel m]) fp
      | .ok 0 => chooseGo rv rest (idx + 1) (errs ++ [diagNoneFound idx c.sel]) fp
      | .ok (Nat.succ _) =>
          if rv then
            match c.visR with
            | .ok true => .chosen idx "visible"
            | .ok false => chooseGo rv rest (idx + 1) errs (fpOr fp (some (idx, c)))
            | .exn m => chooseGo rv rest (idx + 1) (errs ++ [diagError idx c.sel m]) fp
          else chooseGo rv rest (idx + 1) errs (fpOr fp (some (idx, c)))

/-- Shallow embedding of `LocatorStrategy.choose` from
`src/selectors/strategy.py`. -/
def choose (requireVisible : Bool) (cands : List Candidate) : ChooseOutcome :=
  chooseGo requireVisible cands 0 [] none

/-- A candidate on which `choose` returns immediately: positive count and a
truthy `is_visible`. -/
def isVisibleHit (c : Candidate) : Bool :=
  match c.countR, c.visR with
  | .ok (Nat.succ _), .ok true => true
  | _, _ => false

/-- A candidate remembered as present: positive count but falsy
`is_visible`. -/
def isPresentHit (c : Candidate) : Bool :=
  match c.countR, c.visR with
  | .ok (Nat.succ _), .ok false => true
  | _, _ => false

/-- The diagnostic a candidate contributes at index `idx`, if any. -/
def diagOf (idx : Nat) (c : Candidate) : Option String :=
  match c.countR with
  | .exn m => some (diagError idx c.sel m)
  | .ok 0 => some (diagNoneFound idx c.sel)
  | .ok (Nat.succ _) =>
      match c.visR with
      | .exn m => some (diagError idx c.sel m)
      | .ok _ => none

/-- All diagnostics of a candidate list, in candidate order, starting the
index count at `idx`. -/
def collectDiagsFrom : Nat → List Candidate → List String
  | _, [] => []
  | idx, c :: rest =>
      match diagOf idx c with
      | some d => d :: collectDiagsFrom (idx + 1) rest
      | none => collectDiagsFrom (idx + 1) rest

/-- The first present candidate of a list, with its absolute index. -/
def firstPresentFrom : Nat → List Candidate → Option (Nat × Candidate)
  | _, [] => none
  | idx, c :: rest =>
      if isPresentHit c then some (idx, c) else firstPresentFrom (idx + 1) rest

theorem fpOr_none (a : Option (Nat × Candidate)) : fpOr a none = a := by
  cases a <;> rfl

theorem fpOr_assoc (a b c : Option (Nat × Candidate)) :
    fpOr (fpOr a b) c = fpOr a (fpOr b c) := by
  cases a <;> rfl

/-- Scanning reaches the first visible hit and returns it immediately. -/
theorem chooseGo_visible :
    ∀ (rest : List Candidate) (idx : Nat) (errs : List String)
      (fp : Option (Nat × Candidate)) (i : Nat) (c : Candidate),
      rest.get? i = some c → isVisibleHit c = true →
      (∀ d ∈ rest.take i, isVisibleHit d = false) →
      chooseGo true rest idx errs fp = .chosen (idx + i) "visible" := by
  intro rest
  induction rest with
  | nil => intro idx errs fp i c hg _ _; simp at hg
  | cons x rest ih =>
      intro idx errs fp i c hg hvis htake
      cases i with
      | zero =>
          have hx : x = c := by simpa using hg
          subst hx
          cases hc : x.countR with
          | exn m => simp [isVisibleHit, hc] at hvis
          | ok n =>
              cases n with
              | zero => simp [isVisibleHit, hc] at hvis
              | succ k =>
                  cases hv : x.visR with
                  | exn m => simp [isVisibleHit, hc, hv] at hvis
                  | ok b =>
                      cases b with
                      | false => simp [isVisibleHit, hc, hv] at hvis
                      | true => simp [chooseGo, hc, hv]
      | succ j =>
          have hg2 : rest.get? j = some c := by simpa using hg
          have hxf : isVisibleHit x = false := htake x (by simp)
          have htake2 : ∀ d ∈ rest.take j, isVisibleHit d = false := by
            intro d hd
            exact htake d (by simp [hd])
          have harith : idx + 1 + j = idx + (j + 1) := by omega
          cases hc : x.countR with
          | exn m =>
              rw [show chooseGo true (x :: rest) idx errs fp
                    = chooseGo true rest (idx + 1) (errs ++ [diagError idx x.sel m]) fp from by
                  simp [chooseGo, hc]]
              rw [ih (idx + 1) _ fp j c hg2 hvis htake2, harith]
          | ok n =>
              cases n with
              | zero =>
                  rw [show chooseGo true (x :: rest) idx errs fp
                        = chooseGo true rest (idx + 1) (errs ++ [diagNoneFound idx x.sel]) fp
                      from by simp [chooseGo, hc]]
                  rw [ih (idx + 1) _ fp j c hg2 hvis htake2, harith]
              | succ k =>
                  cases hv : x.visR with
                  | exn m =>
                      rw [show chooseGo true (x :: rest) idx errs fp
                            = chooseGo true rest (idx + 1) (errs ++ [diagError idx x.sel m]) fp
                          from by simp [chooseGo, hc, hv]]
                      rw [ih (idx + 1) _ fp j c hg2 hvis htake2, harith]
                  | ok b =>
                      cases b with
                      | true => simp [isVisibleHit, hc, hv] at hxf
                      | false =>
                          rw [show chooseGo true (x :: rest) idx errs fp
                                = chooseGo true rest (idx + 1) errs (fpOr fp (some (idx, x)))
                              from by simp [chooseGo, hc, hv]]
                          rw [ih (idx + 1) errs _ j c hg2 hvis htake2, harith]

/-- When no candidate is a visible hit, the scan loop degenerates into diag
collection plus remembering the first present candidate. -/
theorem chooseGo_noVisible :
    ∀ (rest : List Candidate) (idx : Nat) (errs : List String)
      (fp : Option (Nat × Candidate)),
      (∀ d ∈ rest, isVisibleHit d = false) →
      chooseGo true rest idx errs fp =
        finishChoose (errs ++ collectDiagsFrom idx rest)
          (fpOr fp (firstPresentFrom idx rest)) := by
  intro rest
  induction rest with
  | nil =>
      intro idx errs fp _
      simp [chooseGo, collectDiagsFrom, firstPresentFrom, fpOr_none]
  | cons x rest ih =>
      intro idx errs fp h
      have hx : isVisibleHit x = false := h x (by simp)
      have hrest : ∀ d ∈ rest, isVisibleHit d = false := fun d hd => h d (by simp [hd])
      cases hc : x.countR with
      | exn m =>
          have hpres : isPresentHit x = false := by simp [isPresentHit, hc]
          rw [show chooseGo true (x :: rest) idx errs fp
                = chooseGo true rest (idx + 1) (errs ++ [diagError idx x.sel m]) fp from by
              simp [chooseGo, hc]]
          rw [ih (idx + 1) _ fp hrest]
          simp [collectDiagsFrom, diagOf, hc, firstPresentFrom, hpres, List.append_assoc]
      | ok n =>
          cases n with
          | zero =>
              have hpres : isPresentHit x = false := by simp [isPresentHit, hc]
              rw [show chooseGo true (x :: rest) idx errs fp
                    = chooseGo true rest (idx + 1) (errs ++ [diagNoneFound idx x.sel]) fp
                  from by simp [chooseGo, hc]]
              rw [ih (idx + 1) _ fp hrest]
              simp [collectDiagsFrom, diagOf, hc, firstPresentFrom, hpres, List.append_assoc]
          | succ k =>
              cases hv : x.visR with
              | exn m =>
                  have hpres : isPresentHit x = false := by simp [isPresentHit, hc, hv]
                  rw [show chooseGo true (x :: rest) idx errs fp
                        = chooseGo true rest (idx + 1) (errs ++ [diagError idx x.sel m]) fp
                      from by simp [chooseGo, hc, hv]]
                  rw [ih (idx + 1) _ fp hrest]
                  simp [collectDiagsFrom, diagOf, hc, hv, firstPresentFrom, hpres,
                    List.append_assoc]
              | ok b =>
                  cases b with
                  | true => simp [isVisibleHit, hc, hv] at hx
                  | false =>
                      have hpres : isPresentHit x = true := by simp [isPresentHit, hc, hv]
                      rw [show chooseGo true (x :: rest) idx errs fp
                            = chooseGo true rest (idx + 1) errs (fpOr fp (some (idx, x)))
                          from by simp [chooseGo, hc, hv]]
                      rw [ih (idx + 1) errs _ hrest]
                      have hfp : firstPresentFrom idx (x :: rest) = some (idx, x) := by
                        simp [firstPresentFrom, hpres]
                      have hd : collectDiagsFrom idx (x :: rest)
                          = collectDiagsFrom (idx + 1) rest := by
                        simp [collectDiagsFrom, diagOf, hc, hv]
                      rw [hfp, hd]
                      cases fp <;> rfl

/-- The first present candidate as computed along the scan. -/
theorem firstPresentFrom_some :
    ∀ (rest : List Candidate) (idx i : Nat) (c : Candidate),
      rest.get? i = some c → isPresentHit c = true →
      (∀ d ∈ rest.take i, isPresentHit d = false) →
      firstPresentFrom idx rest = some (idx + i, c) := by
  intro rest
  induction rest with
  | nil => intro idx i c hg _ _; simp at hg
  | cons x rest ih =>
      intro idx i c hg hpres htake
      cases i with
      | zero =>
          have hx : x = c := by simpa using hg
          subst hx
          simp [firstPresentFrom, hpres]
      | succ j =>
          have hg2 : rest.get? j = some c := by simpa using hg
          have hxf : isPresentHit x = false := htake x (by simp)
          have htake2 : ∀ d ∈ rest.take j, isPresentHit d = false := by
            intro d hd
            exact htake d (by simp [hd])
          rw [show firstPresentFrom idx (x :: rest) = firstPresentFrom (idx + 1) rest from by
              simp [firstPresentFrom, hxf]]
          rw [ih (idx + 1) j c hg2 hpres htake2]
          have harith : idx + 1 + j = idx + (j + 1) := by omega
          rw [harith]

/-- With no present candidate there is nothing to remember. -/
theorem firstPresentFrom_none :
    ∀ (rest : List Candidate) (idx : Nat),
      (∀ d ∈ rest, isPresentHit d = false) → firstPresentFrom idx rest = none := by
  intro rest
  induction rest with
  | nil => intro idx _; rfl
  | cons x rest ih =>
      intro idx h
      have hx : isPresentHit x = false := h x (by simp)
      have hrest : ∀ d ∈ rest, isPresentHit d = false := fun d hd => h d (by simp [hd])
      simp [firstPresentFrom, hx, ih (idx + 1) hrest]

/-- C1: for every ordered candidate list, `choose` returns the first candidate
whose first match reports visible, tagged `visible`; failing that, if some
candidate had at least one match it waits once more on the first such present
candidate and returns it tagged `state-wait` when that wait succeeds; otherwise
(no matches anywhere, or the present candidate never becomes visible) it
raises `SelectorNotFound` whose message joins the per-candidate diagnostics in
candidate order. -/
theorem choose_fallback_spec (cands : List Candidate) :
    (∀ i c, cands.get? i = some c → isVisibleHit c = true →
        (∀ d ∈ cands.take i, isVisibleHit d = false) →
        choose true cands = .chosen i "visible") ∧
    ((∀ d ∈ cands, isVisibleHit d = false) →
      (∀ i c, cands.get? i = some c → isPresentHit c = true →
          (∀ d ∈ cands.take i, isPresentHit d = false) → c.waitOk = true →
          choose true cands = .chosen i "state-wait") ∧
      ((∀ d ∈ cands, isPresentHit d = false) →
          choose true cands = .notFound (notFoundMessage (collectDiagsFrom 0 cands))) ∧
      (∀ i c, cands.get? i = some c → isPresentHit c = true →
          (∀ d ∈ cands.take i, isPresentHit d = false) → c.waitOk = false →
          choose true cands = .notFound (notFoundMessage (collectDiagsFrom 0 cands)))) := by
  refine ⟨?_, ?_⟩
  · intro i c hg hvis htake
    have h := chooseGo_visible cands 0 [] none i c hg hvis htake
    simpa [choose] using h
  · intro hnv
    have hscan := chooseGo_noVisible cands 0 [] none hnv
    refine ⟨?_, ?_, ?_⟩
    · intro i c hg hpres htake hwait
      have hfp := firstPresentFrom_some cands 0 i c hg hpres htake
      rw [choose, hscan, hfp]
      simp [finishChoose, fpOr, hwait]
    · intro hnp
      have hfp := firstPresentFrom_none cands 0 hnp
      rw [choose, hscan, hfp]
      simp [finishChoose, fpOr]
    · intro i c hg hpres htake hwait
      have hfp := firstPresentFrom_some cands 0 i c hg hpres htake
      rw [choose, hscan, hfp]
      simp [finishChoose, fpOr, hwait]

/-- Candidates staged for the C1 witness: a candidate with no matches followed
by a visible one. -/
def witnessCands : List Candidate :=
  [⟨⟨"css", "#missing"⟩, .ok 0, .ok false, false⟩,
   ⟨⟨"css", "#login"⟩, .ok 1, .ok true, true⟩]

/-- C1 witness: on a zero-match candidate followed by a visible candidate,
`choose` returns index 1 tagged `visible`. -/
theorem choose_fallback_spec_witness :
    choose true witnessCands = .chosen 1 "visible" := by
  have h := (choose_fallback_spec witnessCands).1 1
    ⟨⟨"css", "#login"⟩, .ok 1, .ok true, true⟩
  exact h rfl rfl (by decide)

end Strategy

namespace Modal

/-- One candidate element scanned by `ModalDetector.detect_active`
(`src/detection/modal_detector.py`): whether `loc.is_visible()` is truthy,
whether the whole per-candidate block runs without raising (a raise skips the
candidate), the computed z-index, and whether the element center lies within
the viewport. -/
structure MCand where
  visible : Bool
  ok : Bool
  z : Int
  inVp : Bool
deriving DecidableEq, Repr

/-- A candidate survives the filters of `detect_active`: no raise, visible,
and center inside the viewport. -/
def eligible (c : MCand) : Bool :=
  c.ok && c.visible && c.inVp

/-- The candidate loop of `detect_active`: walk candidates with their scan
index, keep the running best, replace it only on a strictly larger z-index. -/
def detectGo : List MCand → Nat → Option (Nat × MCand) → Option (Nat × MCand)
  | [], _, best => best
  | c :: rest, i, best =>
      if eligible c then
        match best with
        | none => detectGo rest (i + 1) (some (i, c))
        | some (k, b) =>
            if b.z < c.z then detectGo rest (i + 1) (some (i, c))
            else detectGo rest (i + 1) (some (k, b))
      else detectGo rest (i + 1) best

/-- Shallow embedding of `ModalDetector.detect_active`: scan all candidates
and return the best, or `None` when nothing survives (the `count == 0` early
return yields the same `none`). -/
def detect_active (cands : List MCand) : Option (Nat × MCand) :=
  detectGo cands 0 none

/-- A best candidate at least as large as everything remaining stays best. -/
theorem detectGo_keep :
    ∀ (rest : List MCand) (i k : Nat) (b : MCand),
      (∀ d ∈ rest, eligible d = true → d.z ≤ b.z) →
      detectGo rest i (some (k, b)) = some (k, b) := by
  intro rest
  induction rest with
  | nil => intro i k b _; rfl
  | cons x rest ih =>
      intro i k b h
      have hrest : ∀ d ∈ rest, eligible d = true → d.z ≤ b.z :=
        fun d hd => h d (by simp [hd])
      by_cases hx : eligible x = true
      · have hle : x.z ≤ b.z := h x (by simp) hx
        have hnot : ¬ b.z < x.z := not_lt.mpr hle
        simp [detectGo, hx, hnot, ih (i + 1) k b hrest]
      · simp [detectGo, hx, ih (i + 1) k b hrest]

/-- The scan reaches the first candidate attaining the maximal z-index among
eligible candidates and returns it. -/
theorem detectGo_reach :
    ∀ (rest : List MCand) (i0 : Nat) (best : Option (Nat × MCand)) (i : Nat) (c : MCand),
      rest.get? i = some c → eligible c = true →
      (∀ d ∈ rest, eligible d = true → d.z ≤ c.z) →
      (∀ d ∈ rest.take i, eligible d = true → d.z < c.z) →
      (∀ k b, best = some (k, b) → b.z < c.z) →
      detectGo rest i0 best = some (i0 + i, c) := by
  intro rest
  induction rest with
  | nil => intro i0 best i c hg _ _ _ _; simp at hg
  | cons x rest ih =>
      intro i0 best i c hg helig hmax htake hbest
      have hmaxrest : ∀ d ∈ rest, eligible d = true → d.z ≤ c.z :=
        fun d hd => hmax d (by simp [hd])
      cases i with
      | zero =>
          have hx : x = c := by simpa using hg
          subst hx
          have hkeep : ∀ d ∈ rest, eligible d = true → d.z ≤ x.z := hmaxrest
          cases best with
          | none =>
              simp only [detectGo, helig, if_true]
              simpa using detectGo_keep rest (i0 + 1) i0 x hkeep
          | some kb =>
              obtain ⟨k, b⟩ := kb
              have hlt : b.z < x.z := hbest k b rfl
              simp only [detectGo, helig, if_true, hlt, if_true]
              simpa [hlt] using detectGo_keep rest (i0 + 1) i0 x hkeep
      | succ j =>
          have hg2 : rest.get? j = some c := by simpa using hg
          have htake2 : ∀ d ∈ rest.take j, eligible d = true → d.z < c.z := by
            intro d hd
            exact htake d (by simp [hd])
          have harith : i0 + 1 + j = i0 + (j + 1) := by omega
          by_cases hx : eligible x = true
          · have hxlt : x.z < c.z := htake x (by simp) hx
            cases best with
            | none =>
                rw [show detectGo (x :: rest) i0 none = detectGo rest (i0 + 1) (some (i0, x))
                    from by simp [detectGo, hx]]
                rw [ih (i0 + 1) (some (i0, x)) j c hg2 helig hmaxrest htake2 ?_, harith]
                intro k b hkb
                obtain ⟨hk, hb⟩ := Prod.mk.injEq .. ▸ (Option.some.injEq .. ▸ hkb)
                rw [← hb]
                exact hxlt
            | some kb =>
                obtain ⟨k, b⟩ := kb
                have hblt : b.z < c.z := hbest k b rfl
                by_cases hbz : b.z < x.z
                · rw [show detectGo (x :: rest) i0 (some (k, b))
                        = detectGo rest (i0 + 1) (some (i0, x)) from by
                      simp [detectGo, hx, hbz]]
                  rw [ih (i0 + 1) (some (i0, x)) j c hg2 helig hmaxrest htake2 ?_, harith]
                  intro k2 b2 hkb
                  obtain ⟨hk, hb⟩ := Prod.mk.injEq .. ▸ (Option.some.injEq .. ▸ hkb)
                  rw [← hb]
                  exact hxlt
                · rw [show detectGo (x :: rest) i0 (some (k, b))
                        = detectGo rest (i0 + 1) (some (k, b)) from by
                      simp [detectGo, hx, hbz]]
                  rw [ih (i0 + 1) (some (k, b)) j c hg2 helig hmaxrest htake2 ?_, harith]
                  intro k2 b2 hkb
                  obtain ⟨hk, hb⟩ := Prod.mk.injEq .. ▸ (Option.some.injEq .. ▸ hkb)
                  rw [← hb]
                  exact hblt
          · rw [show detectGo (x :: rest) i0 best = detectGo rest (i0 + 1) best from by
                simp [detectGo, hx]]
            rw [ih (i0 + 1) best j c hg2 helig hmaxrest htake2 hbest, harith]

/-- C4: among the candidates that are visible, scanned without error, and have
their center inside the viewport, `detect_active` returns the one with the
highest computed z-index, ties broken in favor of the earliest-scanned
candidate. -/
theorem detect_active_highest_z (cands : List MCand) (i : Nat) (c : MCand)
    (hg : cands.get? i = some c) (helig : eligible c = true)
    (hmax : ∀ d ∈ cands, eligible d = true → d.z ≤ c.z)
    (hfirst : ∀ d ∈ cands.take i, eligible d = true → d.z < c.z) :
    detect_active cands = some (i, c) := by
  have h := detectGo_reach cands 0 none i c hg helig hmax hfirst
    (fun k b hkb => by simp at hkb)
  simpa [detect_active] using h

/-- A page with two visible, in-viewport dialog-role candidates of z-index 5
and 10, in scan order. -/
def twoDialogs : List MCand :=
  [⟨true, true, 5, true⟩, ⟨true, true, 10, true⟩]

/-- C4 witness: with visible dialogs of z-index 5 and 10, `detect_active`
returns the z-index-10 one (scan index 1). -/
theorem detect_active_highest_z_witness :
    detect_active twoDialogs = some (1, ⟨true, true, 10, true⟩) := by
  exact detect_active_highest_z twoDialogs 1 ⟨true, true, 10, true⟩
    rfl rfl (by decide) (by decide)

end Modal

namespace Engine

/-- The fields of a workflow step that the engine's failure handling reads
(`src/core/engine.py`): the action value, the optional human label, and
the `optional` flag. -/
structure EStep where
  action : String
  name : Option String
  optional : Bool
deriving DecidableEq, Repr

/-- The per-step record the engine appends to `steps_meta` for a successfully
executed step; only the fields the claims reason about are kept
(`step_number` is the 1-based loop index, `description` is
`step.name or step.action.value`). -/
structure StepMeta where
  step_number : Nat
  description : String
deriving DecidableEq, Repr

/-- The `failed_step` record: `{"index": idx, "action": step.action.value,
"name": step.name}`. -/
structure FailedStep where
  index : Nat
  action : String
  name : Option String
deriving DecidableEq, Repr

/-- Observable run events, in order: run-directory creation, manifest write,
each attempted step, and the final metadata.json write (reached only on the
success path). -/
inductive REvent where
  | mkdirRun
  | writeManifest
  | stepRun (idx : Nat)
  | metadataWritten
deriving DecidableEq, Repr

/-- The terminal result dict of `Engine.run_workflow`: `{"ok": True,
"run_dir"}` on success, `{"ok": False, "error", "error_type", "run_dir"}` plus
`failed_step` when a step aborted the run. -/
structure RunResult where
  ok : Bool
  run_dir : String
  error : Option String
  error_type : Option String
  failed_step : Option FailedStep
deriving DecidableEq, Repr

/-- Everything a run leaves behind in the model: the ordered event trace, the
accumulated `steps_meta`, and the returned result dict. -/
structure RunOutput where
  events : List REvent
  steps_meta : List StepMeta
  result : RunResult
deriving DecidableEq, Repr

/-- The `for idx, step in enumerate(wf.steps, start=1)` loop of
`run_workflow`.  Each step comes paired with the outcome of
`actions.execute_step` on the live page: `none` for success, or
`some (message, exception-class-name)` for a raised exception.  On failure of
an optional step (or with the engine-wide continue-on-error setting) the loop
logs and advances — skipping the per-step metadata append, which only runs
after a successful step — and otherwise it records the failed step's
index/action/name and aborts the remaining steps. -/
def runStepsGo (coe : Bool) :
    List (EStep × Option (String × String)) → Nat → List StepMeta → List REvent →
    (List StepMeta × List REvent × Option (FailedStep × String × String))
  | [], _, accM, accE => (accM.reverse, accE.reverse, none)
  | (st, outcome) :: rest, idx, accM, accE =>
      match outcome with
      | none =>
          runStepsGo coe rest (idx + 1)
            (⟨idx, st.name.getD st.action⟩ :: accM) (.stepRun idx :: accE)
      | some (msg, kind) =>
          if st.optional || coe then
            runStepsGo coe rest (idx + 1) accM (.stepRun idx :: accE)
          else
            (accM.reverse, (REvent.stepRun idx :: accE).reverse,
              some (⟨idx, st.action, st.name⟩, msg, kind))

/-- Shallow embedding of `Engine.run_workflow` from `src/core/engine.py`:
`_prepare_run_dirs` creates the run directory and `_write_manifest` writes the
manifest before any step executes; then the step loop runs; on success the
run-level metadata.json is written and `{"ok": True, "run_dir"}` returned; on
a step failure the exception is caught and `{"ok": False, "error",
"error_type", "run_dir", "failed_step"}` returned. -/
def run_workflow (runDir : String) (coe : Bool)
    (steps : List (EStep × Option (String × String))) : RunOutput :=
  match runStepsGo coe steps 1 [] [] with
  | (meta, stepEvents, none) =>
      ⟨REvent.mkdirRun :: REvent.writeManifest :: stepEvents ++ [REvent.metadataWritten],
        meta, ⟨true, runDir, none, none, none⟩⟩
  | (meta, stepEvents, some (fs, msg, kind)) =>
      ⟨REvent.mkdirRun :: REvent.writeManifest :: stepEvents,
        meta, ⟨false, runDir, some msg, some kind, some fs⟩⟩

/-- A reported failure points back at the failing input step: its 1-based
index resolves, within the remaining step list started at `idx`, to a
non-optional step whose outcome carries exactly the reported message and
exception kind. -/
theorem runStepsGo_failure_link (coe : Bool) :
    ∀ (steps : List (EStep × Option (String × String))) (idx : Nat)
      (accM : List StepMeta) (accE : List REvent) (fs : FailedStep) (msg kind : String),
      (runStepsGo coe steps idx accM accE).2.2 = some (fs, msg, kind) →
      idx ≤ fs.index ∧
      ∃ st, steps.get? (fs.index - idx) = some (st, some (msg, kind)) ∧
        fs.action = st.action ∧ fs.name = st.name ∧ st.optional = false := by
  intro steps
  induction steps with
  | nil => intro idx accM accE fs msg kind h; simp [runStepsGo] at h
  | cons p rest ih =>
      intro idx accM accE fs msg kind h
      obtain ⟨st, outcome⟩ := p
      cases outcome with
      | none =>
          rw [show runStepsGo coe ((st, none) :: rest) idx accM accE
                = runStepsGo coe rest (idx + 1)
                    (⟨idx, st.name.getD st.action⟩ :: accM) (.stepRun idx :: accE) from rfl] at h
          obtain ⟨hle, st2, hget, hact, hname, hopt⟩ := ih (idx + 1) _ _ fs msg kind h
          refine ⟨by omega, st2, ?_, hact, hname, hopt⟩
          have hidx : fs.index - idx = (fs.index - (idx + 1)) + 1 := by omega
          rw [hidx]
          simpa using hget
      | some mk =>
          obtain ⟨m, k⟩ := mk
          by_cases hopt : (st.optional || coe) = true
          · rw [show runStepsGo coe ((st, some (m, k)) :: rest) idx accM accE
                  = runStepsGo coe rest (idx + 1) accM (.stepRun idx :: accE) from by
                simp [runStepsGo, hopt]] at h
            obtain ⟨hle, st2, hget, hact, hname, hopt2⟩ := ih (idx + 1) _ _ fs msg kind h
            refine ⟨by omega, st2, ?_, hact, hname, hopt2⟩
            have hidx : fs.index - idx = (fs.index - (idx + 1)) + 1 := by omega
            rw [hidx]
            simpa using hget
          · rw [show runStepsGo coe ((st, some (m, k)) :: rest) idx accM accE
                  = (accM.reverse, (REvent.stepRun idx :: accE).reverse,
                      some (⟨idx, st.action, st.name⟩, m, k)) from by
                simp [runStepsGo, hopt]] at h
            have h2 : (⟨idx, st.action, st.name⟩ : FailedStep) = fs ∧ m = msg ∧ k = kind := by
              simpa using h
            obtain ⟨hfs, hm, hk⟩ := h2
            subst hfs
            subst hm
            subst hk
            have hoptfalse : (st.optional || coe) = false := by
              revert hopt
              cases h3 : (st.optional || coe) <;> simp
            have hoptf : st.optional = false := (Bool.or_eq_false_iff.mp hoptfalse).1
            refine ⟨Nat.le_refl idx, st, ?_, rfl, rfl, hoptf⟩
            simp

/-- C6: every run returns the run directory in its terminal result, creates
the run directory and writes the manifest before any step executes, reports
`ok: true` with no error fields on success, and on failure reports an error
message, an error-kind tag (the exception class name) and a `failed_step`
record whose 1-based index, action and label are those of the input step that
aborted the run. -/
theorem run_workflow_result_shape (runDir : String) (coe : Bool)
    (steps : List (EStep × Option (String × String))) :
    (run_workflow runDir coe steps).result.run_dir = runDir ∧
    (run_workflow runDir coe steps).events.get? 0 = some .mkdirRun ∧
    (run_workflow runDir coe steps).events.get? 1 = some .writeManifest ∧
    ((run_workflow runDir coe steps).result.ok = true →
      (run_workflow runDir coe steps).result.error = none ∧
      (run_workflow runDir coe steps).result.error_type = none ∧
      (run_workflow runDir coe steps).result.failed_step = none) ∧
    ((run_workflow runDir coe steps).result.ok = false →
      ∃ msg kind fs st,
        (run_workflow runDir coe steps).result.error = some msg ∧
        (run_workflow runDir coe steps).result.error_type = some kind ∧
        (run_workflow runDir coe steps).result.failed_step = some fs ∧
        1 ≤ fs.index ∧
        steps.get? (fs.index - 1) = some (st, some (msg, kind)) ∧
        fs.action = st.action ∧ fs.name = st.name ∧ st.optional = false) := by
  rcases hres : runStepsGo coe steps 1 [] [] with ⟨meta, evts, failed⟩
  cases failed with
  | none =>
      refine ⟨by simp [run_workflow, hres], by simp [run_workflow, hres],
        by simp [run_workflow, hres], fun _ => ⟨by simp [run_workflow, hres],
        by simp [run_workflow, hres], by simp [run_workflow, hres]⟩, fun hok => ?_⟩
      simp [run_workflow, hres] at hok
  | some p =>
      rcases p with ⟨fs, msg, kind⟩
      have hlink := runStepsGo_failure_link coe steps 1 [] [] fs msg kind
        (by rw [hres])
      obtain ⟨hle, st, hget, hact, hname, hopt⟩ := hlink
      refine ⟨by simp [run_workflow, hres], by simp [run_workflow, hres],
        by simp [run_workflow, hres], fun hok => ?_, fun _ => ?_⟩
      · simp [run_workflow, hres] at hok
      · exact ⟨msg, kind, fs, st, by simp [run_workflow, hres],
          by simp [run_workflow, hres], by simp [run_workflow, hres],
          hle, hget, hact, hname, hopt⟩

/-- A one-step workflow whose only (non-optional) step fails. -/
def failingWf : List (EStep × Option (String × String)) :=
  [(⟨"goto", some "open dashboard", false⟩, some ("net::ERR_TIMED_OUT", "TimeoutError"))]

/-- C6 witness: a failing one-step run reports `ok: false` with the error
message, the exception class name, the run directory, and a `failed_step`
naming step 1. -/
theorem run_workflow_result_shape_witness :
    (run_workflow "runs/site/task" false failingWf).result.ok = false ∧
    (∃ msg kind fs st,
      (run_workflow "runs/site/task" false failingWf).result.error = some msg ∧
      (run_workflow "runs/site/task" false failingWf).result.error_type = some kind ∧
      (run_workflow "runs/site/task" false failingWf).result.failed_step = some fs ∧
      1 ≤ fs.index ∧
      failingWf.get? (fs.index - 1) = some (st, some (msg, kind)) ∧
      fs.action = st.action ∧ fs.name = st.name ∧ st.optional = false) := by
  have h := run_workflow_result_shape "runs/site/task" false failingWf
  exact ⟨rfl, h.2.2.2.2 rfl⟩

/-- A two-step workflow: an optional step that fails, then a normal step that
succeeds. -/
def optFailWf : List (EStep × Option (String × String)) :=
  [(⟨"click", some "dismiss banner", true⟩, some ("boom", "RuntimeError")),
   (⟨"screenshot", none, false⟩, none)]

/-- C5 counterexample: with an always-failing optional step followed by a
succeeding normal step, the run does complete with `ok: true`, but the
per-step metadata list contains no entry (and no skip marker) at the failed
step's position: the failure branch advances with `continue` before the
metadata append, so the only entry carries `step_number = 2`. -/
theorem run_workflow_optional_meta_counterexample :
    (run_workflow "runs/demo" false optFailWf).result.ok = true ∧
    (run_workflow "runs/demo" false optFailWf).steps_meta.map
      (fun m => m.step_number) = [2] ∧
    (∀ m ∈ (run_workflow "runs/demo" false optFailWf).steps_meta,
      m.step_number ≠ 1) := by
  refine ⟨by decide, by decide, by decide⟩

/-- C5 as amended: a workflow whose optional step always fails, followed by a
normal step that succeeds, completes with `ok: true`, but the failed optional
step contributes no entry to the per-step metadata list — the surviving step
keeps its original step number 2 and no entry carries the failed position 1;
for a failing non-optional step with continue-on-error disabled the engine
records the failed step's index/action/name and aborts the remaining steps,
leaving only its own attempt in the event trace. -/
theorem run_workflow_optional_skip_and_abort (runDir : String) (s1 s2 s3 : EStep)
    (e e2 : String × String) (rest : List (EStep × Option (String × String)))
    (h1 : s1.optional = true) (h3 : s3.optional = false) :
    (run_workflow runDir false [(s1, some e), (s2, none)]).result.ok = true ∧
    (run_workflow runDir false [(s1, some e), (s2, none)]).steps_meta
      = [⟨2, s2.name.getD s2.action⟩] ∧
    (∀ m ∈ (run_workflow runDir false [(s1, some e), (s2, none)]).steps_meta,
      m.step_number ≠ 1) ∧
    (run_workflow runDir false ((s3, some e2) :: rest)).result.ok = false ∧
    (run_workflow runDir false ((s3, some e2) :: rest)).result.failed_step
      = some ⟨1, s3.action, s3.name⟩ ∧
    (run_workflow runDir false ((s3, some e2) :: rest)).steps_meta = [] ∧
    (run_workflow runDir false ((s3, some e2) :: rest)).events
      = [.mkdirRun, .writeManifest, .stepRun 1] := by
  obtain ⟨m1, k1⟩ := e
  obtain ⟨m2, k2⟩ := e2
  refine ⟨?_, ?_, ?_, ?_, ?_, ?_, ?_⟩ <;>
    simp [run_workflow, runStepsGo, h1, h3]

/-- C5 witness: the amended behaviour at a concrete two-step workflow and a
concrete aborting workflow. -/
theorem run_workflow_optional_skip_and_abort_witness :
    (run_workflow "runs/demo2" false
      [(⟨"click", some "dismiss banner", true⟩, some ("boom", "RuntimeError")),
       (⟨"screenshot", none, false⟩, none)]).result.ok = true ∧
    (run_workflow "runs/demo2" false
      [(⟨"click", some "dismiss banner", true⟩, some ("boom", "RuntimeError")),
       (⟨"screenshot", none, false⟩, none)]).steps_meta = [⟨2, "screenshot"⟩] ∧
    (run_workflow "runs/demo2" false
      [(⟨"fill", some "enter name", false⟩, some ("detached", "PWError"))]).result.failed_step
      = some ⟨1, "fill", some "enter name"⟩ := by
  have h := run_workflow_optional_skip_and_abort "runs/demo2"
    ⟨"click", some "dismiss banner", true⟩ ⟨"screenshot", none, false⟩
    ⟨"fill", some "enter name", false⟩ ("boom", "RuntimeError") ("detached", "PWError")
    [] rfl rfl
  exact ⟨h.1, h.2.1, h.2.2.2.2.1⟩

end Engine

end UICap
